import Mathlib

/-!
Shallow embedding of the EarPeace landing-page hero scrubber
(`src/script.js`, class `HeroCanvas`), together with the earlier
direct-mapping variant of the scroll handler (`src/unnamed/part_000`).

Numbers are modelled exactly: plain JavaScript arithmetic on the finite
path is embedded as rational arithmetic (`ℚ`), and the scroll handler —
where a division can produce `NaN`/`Infinity` that `Math.min`/`Math.max`
then propagate — is embedded in an extended number type `JSNum` that
carries those special values with IEEE-754/JavaScript semantics for the
operations the handler uses.
-/

namespace EarPeace

/-- `TOTAL_FRAMES` from `src/script.js` (`const TOTAL_FRAMES = 248`). -/
def TOTAL_FRAMES : ℕ := 248

/-- `this.ease = 0.06` from the `HeroCanvas` constructor. -/
def ease : ℚ := 6 / 100

/-! ## JavaScript number semantics

The scroll handler computes `scrollTop / maxScrollTop` where the
denominator may be zero; JavaScript then yields `NaN` (0/0) or a signed
infinity, and `Math.min`/`Math.max` return `NaN` as soon as one argument
is `NaN`.  `JSNum` is a rational together with those special values. -/

/-- A JavaScript number: finite (exact rational), `±Infinity`, or `NaN`. -/
inductive JSNum where
  | fin : ℚ → JSNum
  | posInf : JSNum
  | negInf : JSNum
  | nan : JSNum
deriving DecidableEq, Repr

namespace JSNum

/-- JavaScript division of two finite numbers: `a / 0` is `NaN` when
`a = 0` and a signed infinity otherwise. -/
def jsDiv (a b : ℚ) : JSNum :=
  if b = 0 then
    if a = 0 then nan else if 0 < a then posInf else negInf
  else fin (a / b)

/-- `Math.min`: `NaN` if either argument is `NaN`. -/
def jsMin (x y : JSNum) : JSNum :=
  match x, y with
  | nan, _ => nan
  | _, nan => nan
  | fin a, fin b => fin (min a b)
  | negInf, _ => negInf
  | _, negInf => negInf
  | posInf, y => y
  | x, posInf => x

/-- `Math.max`: `NaN` if either argument is `NaN`. -/
def jsMax (x y : JSNum) : JSNum :=
  match x, y with
  | nan, _ => nan
  | _, nan => nan
  | fin a, fin b => fin (max a b)
  | posInf, _ => posInf
  | _, posInf => posInf
  | negInf, y => y
  | x, negInf => x

/-- JavaScript addition (`Infinity + -Infinity = NaN`). -/
def jsAdd (x y : JSNum) : JSNum :=
  match x, y with
  | nan, _ => nan
  | _, nan => nan
  | fin a, fin b => fin (a + b)
  | posInf, negInf => nan
  | negInf, posInf => nan
  | posInf, _ => posInf
  | _, posInf => posInf
  | negInf, _ => negInf
  | _, negInf => negInf

/-- JavaScript subtraction (`Infinity - Infinity = NaN`). -/
def jsSub (x y : JSNum) : JSNum :=
  match x, y with
  | nan, _ => nan
  | _, nan => nan
  | fin a, fin b => fin (a - b)
  | posInf, posInf => nan
  | negInf, negInf => nan
  | posInf, _ => posInf
  | negInf, _ => negInf
  | fin _, posInf => negInf
  | fin _, negInf => posInf

/-- JavaScript multiplication by a finite constant
(`Infinity * 0 = NaN`). -/
def jsMulQ (x : JSNum) (q : ℚ) : JSNum :=
  match x with
  | nan => nan
  | fin a => fin (a * q)
  | posInf => if 0 < q then posInf else if q < 0 then negInf else nan
  | negInf => if 0 < q then negInf else if q < 0 then posInf else nan

/-- JavaScript comparison `x >= y`: false whenever one side is `NaN`. -/
def jsGe (x y : JSNum) : Bool :=
  match x, y with
  | nan, _ => false
  | _, nan => false
  | fin a, fin b => decide (b ≤ a)
  | posInf, _ => true
  | _, negInf => true
  | negInf, _ => false
  | fin _, posInf => false

end JSNum

/-! ## Scroll-to-target mapping (`bindScroll`, `onScroll`) -/

/-- The clamp `Math.max(0, Math.min(1, x))` on the finite path. -/
def clamp01 (x : ℚ) : ℚ := max 0 (min 1 x)

/-- The finite-path target computation of `onScroll`:
`Math.min(totalFrames - 1, scrollFraction * totalFrames)` for a finite
scroll fraction `f`.  Note the source keeps the continuous product — it
does not floor. -/
def targetOfFraction (N : ℕ) (f : ℚ) : ℚ := min ((N : ℚ) - 1) (f * N)

/-- The full `onScroll` handler body of `src/script.js` (lines 57-62):
`scrollFraction = Math.max(0, Math.min(1, scrollTop / maxScrollTop))`;
`targetFrame = Math.min(totalFrames - 1, scrollFraction * totalFrames)`,
with JavaScript `NaN`/`Infinity` semantics. -/
def onScroll (N : ℕ) (scrollTop maxScrollTop : ℚ) : JSNum :=
  let scrollFraction :=
    JSNum.jsMax (JSNum.fin 0) (JSNum.jsMin (JSNum.fin 1)
      (JSNum.jsDiv scrollTop maxScrollTop))
  JSNum.jsMin (JSNum.fin ((N : ℚ) - 1)) (JSNum.jsMulQ scrollFraction (N : ℚ))

/-- The direct-mapping scroll handler of the earlier variant
(`src/unnamed/part_000`, `onScroll`):
`Math.min(totalFrames - 1, Math.floor(scrollFraction * totalFrames))`. -/
def directFrameIndex (N : ℕ) (f : ℚ) : ℤ := min ((N : ℤ) - 1) ⌊f * (N : ℚ)⌋

/-! ## Temporal smoothing (`bindScroll`, `loop`) -/

/-- One render-loop smoothing update:
`currentFrame += (targetFrame - currentFrame) * ease`. -/
def smoothStep (e target c : ℚ) : ℚ := c + (target - c) * e

/-- `k` smoothing updates from start `c` toward a fixed `target`. -/
def smoothIter (e target c : ℚ) : ℕ → ℚ
  | 0 => c
  | k + 1 => smoothStep e target (smoothIter e target c k)

/-! ## Scrub-state machine

The mutable scrub state of `HeroCanvas` (`targetFrame`, `currentFrame`)
plus the one-way `visible` class that `crossfadeIfEnding` adds to the
`.hero` element.  Scroll events and render-loop ticks are the two
operations that mutate it.  Numbers are `JSNum` because the scroll
handler can feed `NaN` into this state. -/

/-- The scrub state of a `HeroCanvas` instance together with the
`visible` marking on the `.hero` element. -/
structure HeroState where
  targetFrame : JSNum
  currentFrame : JSNum
  heroVisible : Bool
deriving DecidableEq, Repr

/-- Constructor state: `this.currentFrame = 0; this.targetFrame = 0`
(lines 12-14), and the `.hero` element starts without the `visible`
class. -/
def initState : HeroState :=
  { targetFrame := JSNum.fin 0, currentFrame := JSNum.fin 0, heroVisible := false }

/-- An input to the scrub state: a scroll event carrying the document
metrics it reads (`scrollTop` and
`maxScrollTop = scrollHeight - innerHeight`), or one render-loop tick. -/
inductive HeroEvent where
  | scroll (scrollTop maxScrollTop : ℚ)
  | tick
deriving DecidableEq, Repr

/-- `crossfadeIfEnding`: add the `visible` class to the `.hero` element
when `currentFrame >= totalFrames - 2` (`classList.add` is idempotent
and nothing in the program removes this class). -/
def crossfadeIfEnding (N : ℕ) (s : HeroState) : HeroState :=
  if JSNum.jsGe s.currentFrame (JSNum.fin ((N : ℚ) - 2)) then
    { s with heroVisible := true }
  else s

/-- One state transition: a scroll event runs `onScroll` (writing
`targetFrame` only), and a render-loop tick runs the `loop` body —
`currentFrame += (targetFrame - currentFrame) * ease` followed by
`crossfadeIfEnding` (the draw itself touches only the canvas surface,
modelled separately by `drawFrame`). -/
def step (N : ℕ) (s : HeroState) : HeroEvent → HeroState
  | .scroll st mst => { s with targetFrame := onScroll N st mst }
  | .tick =>
      crossfadeIfEnding N
        { s with
          currentFrame :=
            JSNum.jsAdd s.currentFrame
              (JSNum.jsMulQ (JSNum.jsSub s.targetFrame s.currentFrame) ease) }

/-- Run a sequence of events through the scrub-state machine. -/
def run (N : ℕ) (s : HeroState) (evs : List HeroEvent) : HeroState :=
  evs.foldl (step N) s

/-- The scrub-state invariant claimed by the spec:
`0 ≤ targetFrame, currentFrame ≤ N - 1` — in particular both are finite
numbers, not `NaN`. -/
def ScrubInv (N : ℕ) (s : HeroState) : Prop :=
  (∃ t : ℚ, s.targetFrame = JSNum.fin t ∧ 0 ≤ t ∧ t ≤ (N : ℚ) - 1) ∧
  (∃ c : ℚ, s.currentFrame = JSNum.fin c ∧ 0 ≤ c ∧ c ≤ (N : ℚ) - 1)

/-- A scroll event whose document metrics are not the degenerate pair
`scrollTop = 0, maxScrollTop = 0` (where JavaScript computes `0/0 = NaN`);
ticks are always good. -/
def goodEvent : HeroEvent → Prop
  | .scroll st mst => ¬(st = 0 ∧ mst = 0)
  | .tick => True

/-! ## Images, the canvas surface, and `drawFrame` -/

/-- An image handle: the `width`/`height` the drawing code reads.  An
`Image` whose load failed never decodes, so its `width` is `0` — that is
the "resolved but empty" sentinel the preloader stores. -/
structure Image where
  width : ℚ
  height : ℚ
deriving DecidableEq, Repr

/-- A drawing command issued to the 2D context: `clearRect(0,0,w,h)` or
`drawImage(img, x, y, w, h)`. -/
inductive CanvasOp where
  | clear (w h : ℚ)
  | draw (img : Image) (x y w h : ℚ)
deriving DecidableEq, Repr

/-- The observable canvas surface: its `style.opacity` (as the number the
CSS string encodes) and the list of drawing commands issued so far (the
canvas content is determined by them). -/
structure Surface where
  opacity : ℚ
  ops : List CanvasOp
deriving DecidableEq, Repr

/-- The `fadeThreshold = 8` constant of `drawFrame`. -/
def fadeThreshold : ℚ := 8

/-- The aspect-fit placement block of `drawFrame` (lines 88-101),
returning `(drawWidth, drawHeight, offsetX, offsetY)`. -/
def aspectFit (cssW cssH imgW imgH : ℚ) : ℚ × ℚ × ℚ × ℚ :=
  let canvasRatio := cssW / cssH
  let imgRatio := imgW / imgH
  if canvasRatio > imgRatio then
    let drawWidth := cssW
    let drawHeight := drawWidth / imgRatio
    (drawWidth, drawHeight, 0, (cssH - drawHeight) / 2)
  else
    let drawHeight := cssH
    let drawWidth := drawHeight * imgRatio
    (drawWidth, drawHeight, (cssW - drawWidth) / 2, 0)

/-- `drawFrame(index)`: look up the cache slot (`this.images[index]`,
`undefined` outside the filled range); return unchanged if the slot is
empty or the image is falsy-width (`!img || !img.width`); otherwise
clear, compute the aspect-fit placement, set the edge-fade opacity and
draw.  `images` is the cache, `cssW`/`cssH` the canvas CSS size. -/
def drawFrame (N : ℕ) (images : ℤ → Option Image) (cssW cssH : ℚ)
    (index : ℤ) (s : Surface) : Surface :=
  match images index with
  | none => s
  | some img =>
      if img.width = 0 then s
      else
        let placement := aspectFit cssW cssH img.width img.height
        let alpha :=
          if (N : ℚ) - (index : ℚ) ≤ fadeThreshold then
            max 0 (((N : ℚ) - (index : ℚ)) / fadeThreshold)
          else 1
        { opacity := alpha,
          ops := s.ops ++
            [CanvasOp.clear cssW cssH,
             CanvasOp.draw img placement.2.2.1 placement.2.2.2
               placement.1 placement.2.1] }

/-! ## Preloading (`preloadFrames`) -/

/-- How one frame's fetch settles: `onload` fires with the decoded image,
or `onerror` fires (the stored `Image` element then has width 0). -/
inductive LoadOutcome where
  | ok (img : Image)
  | err
deriving DecidableEq, Repr

/-- The image the handler stores in `this.images[i]`: the decoded image
on `onload`, the never-decoded element (width and height 0) on
`onerror`. -/
def storedImage : LoadOutcome → Image
  | .ok img => img
  | .err => { width := 0, height := 0 }

/-- The preloader state: the `this.images` array (a slot is `none` while
its fetch is pending — `new Array(totalFrames)` starts all-empty) and the
`this.loaded` counter. -/
structure PreloadState where
  images : ℕ → Option Image
  loaded : ℕ

/-- The state right after `preloadFrames` issues its fetches. -/
def preloadInit : PreloadState := { images := fun _ => none, loaded := 0 }

/-- One fetch settling: `onload` stores the image and bumps `loaded`;
`onerror` stores the empty element and leaves `loaded` alone.  Either
way the promise for that index resolves. -/
def settle (s : PreloadState) : ℕ × LoadOutcome → PreloadState
  | (i, o) =>
      { images := Function.update s.images i (some (storedImage o)),
        loaded := match o with | .ok _ => s.loaded + 1 | .err => s.loaded }

/-- Process a sequence of fetch settlements in order. -/
def runPreload (s : PreloadState) (evs : List (ℕ × LoadOutcome)) : PreloadState :=
  evs.foldl settle s

/-- `Promise.all` resolution condition: every one of the `N` per-frame
promises has resolved, i.e. every slot is filled. -/
def allSettled (N : ℕ) (s : PreloadState) : Bool :=
  (List.range N).all fun i => (s.images i).isSome

/-- A settlement is width-sound when a successful decode has nonzero
width (a decoded image always does; the failed sentinel has width 0). -/
def widthSound : ℕ × LoadOutcome → Bool
  | (_, .ok img) => img.width != 0
  | (_, .err) => true

/-! ## Helper lemmas -/

/-- As long as the document metrics are not the degenerate `0 / 0` pair,
`onScroll` computes a finite target in `[0, N - 1]`. -/
lemma onScroll_fin_of_not00 (N : ℕ) (hN : 1 ≤ N) (st mst : ℚ)
    (h : ¬(st = 0 ∧ mst = 0)) :
    ∃ t : ℚ, onScroll N st mst = JSNum.fin t ∧ 0 ≤ t ∧ t ≤ (N : ℚ) - 1 := by
  have hN1 : (1 : ℚ) ≤ (N : ℚ) := by exact_mod_cast hN
  have hN0 : (0 : ℚ) ≤ (N : ℚ) - 1 := by linarith
  by_cases hm : mst = 0
  · subst hm
    have hst : st ≠ 0 := fun hs => h ⟨hs, rfl⟩
    by_cases hpos : 0 < st
    · refine ⟨min ((N : ℚ) - 1) (1 * (N : ℚ)), ?_, ?_, min_le_left _ _⟩
      · simp [onScroll, JSNum.jsDiv, hst, hpos, JSNum.jsMin, JSNum.jsMax,
          JSNum.jsMulQ]
      · have : (0 : ℚ) ≤ 1 * (N : ℚ) := by linarith
        exact le_min hN0 this
    · refine ⟨min ((N : ℚ) - 1) (0 * (N : ℚ)), ?_, ?_, min_le_left _ _⟩
      · simp [onScroll, JSNum.jsDiv, hst, hpos, JSNum.jsMin, JSNum.jsMax,
          JSNum.jsMulQ]
      · simpa using le_min hN0 le_rfl
  · set f : ℚ := max 0 (min 1 (st / mst)) with hf
    have hf0 : 0 ≤ f := le_max_left _ _
    refine ⟨min ((N : ℚ) - 1) (f * (N : ℚ)), ?_, ?_, min_le_left _ _⟩
    · simp [onScroll, JSNum.jsDiv, hm, JSNum.jsMin, JSNum.jsMax, JSNum.jsMulQ,
        hf]
    · have : (0 : ℚ) ≤ f * (N : ℚ) := mul_nonneg hf0 (by linarith)
      exact le_min hN0 this

/-- The smoothing error is geometric: after `k` updates the remaining
distance to the target is the initial distance scaled by `(1 - e)^k`. -/
lemma smoothIter_geo (e t c : ℚ) (k : ℕ) :
    t - smoothIter e t c k = (t - c) * (1 - e) ^ k := by
  induction k with
  | zero => simp [smoothIter]
  | succ n ih =>
      have hstep : smoothIter e t c (n + 1)
          = smoothIter e t c n + (t - smoothIter e t c n) * e := rfl
      rw [hstep]
      have h2 : t - (smoothIter e t c n + (t - smoothIter e t c n) * e)
          = (t - smoothIter e t c n) * (1 - e) := by ring
      rw [h2, ih]
      ring

/-- Absolute-value form of the geometric error, for `0 ≤ e ≤ 1`. -/
lemma smoothIter_abs (e t c : ℚ) (he0 : 0 ≤ e) (he1 : e ≤ 1) (k : ℕ) :
    |t - smoothIter e t c k| = |t - c| * (1 - e) ^ k := by
  rw [smoothIter_geo, abs_mul, abs_pow,
    abs_of_nonneg (by linarith : (0 : ℚ) ≤ 1 - e)]

/-- `crossfadeIfEnding` touches only the `visible` marking. -/
lemma crossfadeIfEnding_frames (N : ℕ) (s : HeroState) :
    (crossfadeIfEnding N s).targetFrame = s.targetFrame ∧
    (crossfadeIfEnding N s).currentFrame = s.currentFrame := by
  unfold crossfadeIfEnding
  split <;> simp

/-- `crossfadeIfEnding` never clears the `visible` marking. -/
lemma crossfadeIfEnding_mono (N : ℕ) (s : HeroState)
    (h : s.heroVisible = true) : (crossfadeIfEnding N s).heroVisible = true := by
  unfold crossfadeIfEnding
  split <;> simp [h]

/-- A preload slot not named by any settlement event keeps its value. -/
lemma runPreload_untouched (i : ℕ) :
    ∀ (l : List (ℕ × LoadOutcome)) (s : PreloadState),
      i ∉ l.map Prod.fst → (runPreload s l).images i = s.images i := by
  intro l
  induction l with
  | nil => intro s _; rfl
  | cons e rest ih =>
      intro s h
      obtain ⟨j, o⟩ := e
      simp only [List.map_cons, List.mem_cons, not_or] at h
      have hstep : runPreload s ((j, o) :: rest)
          = runPreload (settle s (j, o)) rest := rfl
      rw [hstep, ih _ h.2]
      simp [settle, Function.update_noteq h.1]

/-- When each index settles at most once, processing the events stores
exactly the image each outcome dictates. -/
lemma runPreload_mem (i : ℕ) (o : LoadOutcome) :
    ∀ (l : List (ℕ × LoadOutcome)) (s : PreloadState),
      (i, o) ∈ l → (l.map Prod.fst).Nodup →
      (runPreload s l).images i = some (storedImage o) := by
  intro l
  induction l with
  | nil => intro s hmem _; cases hmem
  | cons e rest ih =>
      intro s hmem hnd
      obtain ⟨j, o'⟩ := e
      simp only [List.map_cons, List.nodup_cons] at hnd
      have hstep : runPreload s ((j, o') :: rest)
          = runPreload (settle s (j, o')) rest := rfl
      rcases List.mem_cons.mp hmem with heq | hmem'
      · injection heq with h1 h2
        subst h1; subst h2
        rw [hstep, runPreload_untouched i rest _ hnd.1]
        simp [settle]
      · rw [hstep]
        exact ih _ hmem' hnd.2

/-! ## Claim theorems -/

/-- Claim C1, counterexample: the scroll handler does not floor.  At the
concrete measurement `scrollTop = 1`, `maxScrollTop = 496` (so
`scrollFraction = 1/496 ∈ [0,1]`) with `N = 248`, the code stores
`targetFrame = 1/2`, while the claimed formula
`clamp(floor(scrollFraction * N), 0, N - 1)` gives `0`. -/
theorem c1_counterexample :
    onScroll 248 1 496 = JSNum.fin (1 / 2) ∧
    ((max 0 (min ((248 : ℤ) - 1) ⌊((1 : ℚ) / 496) * (248 : ℚ)⌋) : ℤ) : ℚ) = 0 ∧
    (1 / 2 : ℚ) ≠ 0 := by
  refine ⟨?_, by norm_num, by norm_num⟩
  norm_num [onScroll, JSNum.jsDiv, JSNum.jsMin, JSNum.jsMax, JSNum.jsMulQ]

/-- Claim C1 (amended): for every scroll measurement whose clamped
fraction is `f ∈ [0,1]` (document scrollable, `maxScrollTop ≠ 0`), the
handler sets `targetFrame = min(N-1, f * N)` — the continuous product,
not floored — and this target lies in `[0, N-1]`, with fraction `0`
yielding frame `0` and fraction `1` yielding frame `N-1`. -/
theorem c1_scroll_target_mapping (N : ℕ) (hN : 1 ≤ N) (f : ℚ)
    (h0 : 0 ≤ f) (h1 : f ≤ 1) :
    (∀ st mst : ℚ, mst ≠ 0 → clamp01 (st / mst) = f →
        onScroll N st mst = JSNum.fin (targetOfFraction N f)) ∧
    0 ≤ targetOfFraction N f ∧
    targetOfFraction N f ≤ (N : ℚ) - 1 ∧
    (f = 0 → targetOfFraction N f = 0) ∧
    (f = 1 → targetOfFraction N f = (N : ℚ) - 1) := by
  have hN1 : (1 : ℚ) ≤ (N : ℚ) := by exact_mod_cast hN
  have hN0 : (0 : ℚ) ≤ (N : ℚ) - 1 := by linarith
  refine ⟨?_, ?_, min_le_left _ _, ?_, ?_⟩
  · intro st mst hm hf
    simp only [clamp01] at hf
    simp [onScroll, JSNum.jsDiv, hm, JSNum.jsMin, JSNum.jsMax, JSNum.jsMulQ,
      hf, targetOfFraction]
  · exact le_min hN0 (mul_nonneg h0 (by linarith))
  · intro hf; subst hf
    simp [targetOfFraction, hN0]
  · intro hf; subst hf
    have : (N : ℚ) - 1 ≤ 1 * (N : ℚ) := by linarith
    simp [targetOfFraction, min_eq_left this]

/-- Claim C1, witness: at `N = 248` and the measurement
`scrollTop = maxScrollTop = 496` (fraction `1`), the handler stores the
last frame `N - 1 = 247`. -/
theorem c1_witness :
    onScroll 248 496 496 = JSNum.fin (targetOfFraction 248 1) ∧
    targetOfFraction 248 1 = (248 : ℚ) - 1 := by
  have h := c1_scroll_target_mapping 248 (by norm_num) 1 (by norm_num)
    (by norm_num)
  exact ⟨h.1 496 496 (by norm_num) (by norm_num [clamp01]), h.2.2.2.2 rfl⟩

/-- Claim C2, counterexample: for the typical non-scrollable document
(`scrollTop = 0`, `maxScrollTop = scrollHeight - innerHeight = 0`), the
quotient is `0 / 0 = NaN`, `Math.min`/`Math.max` propagate it, and the
handler stores `targetFrame = NaN` — not the finite `0` the claim
asserts. -/
theorem c2_counterexample :
    onScroll 248 0 0 = JSNum.nan ∧ onScroll 248 0 0 ≠ JSNum.fin 0 := by
  refine ⟨by decide, by decide⟩

/-- Claim C2 (amended): for a non-scrollable document
(`maxScrollTop ≤ 0`, `scrollTop ≥ 0`) the computation stays finite in
`[0, N-1]` in every case except the degenerate `scrollTop = 0,
maxScrollTop = 0` pair; when `maxScrollTop < 0` the fraction clamps to
`0` and the target is exactly frame `0`.  In the excluded `0 / 0` case
the clamps propagate `NaN` into `targetFrame` (see the
counterexample). -/
theorem c2_nonscrollable_guard (N : ℕ) (hN : 1 ≤ N) (st mst : ℚ)
    (hns : mst ≤ 0) (hst : 0 ≤ st) (h00 : ¬(st = 0 ∧ mst = 0)) :
    (∃ t : ℚ, onScroll N st mst = JSNum.fin t ∧ 0 ≤ t ∧ t ≤ (N : ℚ) - 1) ∧
    (mst < 0 → onScroll N st mst = JSNum.fin 0) := by
  refine ⟨onScroll_fin_of_not00 N hN st mst h00, ?_⟩
  intro hlt
  have hm : mst ≠ 0 := ne_of_lt hlt
  have hq : st / mst ≤ 0 := div_nonpos_of_nonneg_of_nonpos hst hns
  have hclamp : max 0 (min 1 (st / mst)) = 0 :=
    by rw [min_eq_right (hq.trans zero_le_one), max_eq_left hq]
  have hN0 : (0 : ℚ) ≤ (N : ℚ) - 1 := by
    have : (1 : ℚ) ≤ (N : ℚ) := by exact_mod_cast hN
    linarith
  simp [onScroll, JSNum.jsDiv, hm, JSNum.jsMin, JSNum.jsMax, JSNum.jsMulQ,
    hclamp, min_eq_right hN0]

/-- Claim C2, witness: at `N = 248`, `scrollTop = 3`,
`maxScrollTop = -1` (document shorter than the viewport), the target is
frame `0`. -/
theorem c2_witness : onScroll 248 3 (-1) = JSNum.fin 0 :=
  (c2_nonscrollable_guard 248 (by norm_num) 3 (-1) (by norm_num)
    (by norm_num) (by norm_num)).2 (by norm_num)

/-- Claim C3: for every fixed target `t`, start `c` and easing constant
`e ∈ (0,1)`, iterating `currentFrame += (targetFrame - currentFrame) * e`
shrinks the distance to the target at every step, moves `currentFrame`
monotonically toward `t` without ever crossing it (from below when
`c ≤ t`, from above when `t ≤ c`), and the distance drops below any
`ε > 0` once the tick count exceeds `log(|t - c| / ε) / e` — that is,
after `O(log(1/ε)/e)` iterations. -/
theorem c3_smoothing_convergence (e t c : ℚ) (he0 : 0 < e) (he1 : e < 1) :
    (∀ k, |t - smoothIter e t c (k + 1)| ≤ |t - smoothIter e t c k|) ∧
    (∀ k, c ≤ t → smoothIter e t c k ≤ smoothIter e t c (k + 1) ∧
        smoothIter e t c (k + 1) ≤ t) ∧
    (∀ k, t ≤ c → t ≤ smoothIter e t c (k + 1) ∧
        smoothIter e t c (k + 1) ≤ smoothIter e t c k) ∧
    (∀ ε : ℝ, 0 < ε → ∀ k : ℕ,
        Real.log (|(t : ℝ) - (c : ℝ)| / ε) / (e : ℝ) < (k : ℝ) →
        |(t : ℝ) - ((smoothIter e t c k : ℚ) : ℝ)| < ε) := by
  have hpnn : ∀ k : ℕ, (0 : ℚ) ≤ (1 - e) ^ k :=
    fun k => pow_nonneg (by linarith) k
  refine ⟨?_, ?_, ?_, ?_⟩
  · intro k
    rw [smoothIter_abs e t c (le_of_lt he0) (le_of_lt he1),
      smoothIter_abs e t c (le_of_lt he0) (le_of_lt he1)]
    have hsucc : (1 - e) ^ (k + 1) = (1 - e) ^ k * (1 - e) := pow_succ _ _
    have h1 : (1 - e) ^ (k + 1) ≤ (1 - e) ^ k := by
      rw [hsucc]
      nlinarith [hpnn k]
    nlinarith [abs_nonneg (t - c), hpnn k]
  · intro k hct
    have hd : 0 ≤ t - smoothIter e t c k := by
      rw [smoothIter_geo]
      nlinarith [hpnn k]
    have hd1 : 0 ≤ t - smoothIter e t c (k + 1) := by
      rw [smoothIter_geo]
      nlinarith [hpnn (k + 1)]
    have hstep : smoothIter e t c (k + 1)
        = smoothIter e t c k + (t - smoothIter e t c k) * e := rfl
    constructor
    · nlinarith
    · linarith
  · intro k htc
    have hd : t - smoothIter e t c k ≤ 0 := by
      rw [smoothIter_geo]
      nlinarith [hpnn k]
    have hd1 : t - smoothIter e t c (k + 1) ≤ 0 := by
      rw [smoothIter_geo]
      nlinarith [hpnn (k + 1)]
    have hstep : smoothIter e t c (k + 1)
        = smoothIter e t c k + (t - smoothIter e t c k) * e := rfl
    constructor
    · linarith
    · nlinarith
  · intro ε hε k hk
    have hE0 : (0 : ℝ) < (e : ℝ) := by exact_mod_cast he0
    have habs : |(t : ℝ) - ((smoothIter e t c k : ℚ) : ℝ)|
        = |(t : ℝ) - (c : ℝ)| * (1 - (e : ℝ)) ^ k := by
      have h2 := congrArg (fun q : ℚ => (q : ℝ))
        (smoothIter_abs e t c (le_of_lt he0) (le_of_lt he1) k)
      push_cast at h2
      exact h2
    rw [habs]
    set D : ℝ := |(t : ℝ) - (c : ℝ)| with hD
    have hD0 : (0 : ℝ) ≤ D := abs_nonneg _
    have hpow : (1 - (e : ℝ)) ^ k ≤ Real.exp (-((e : ℝ) * k)) := by
      have h1 : 1 - (e : ℝ) ≤ Real.exp (-(e : ℝ)) := by
        have h2 := Real.add_one_le_exp (-(e : ℝ))
        linarith
      calc (1 - (e : ℝ)) ^ k ≤ (Real.exp (-(e : ℝ))) ^ k :=
            pow_le_pow_left₀ (by exact_mod_cast (by linarith : (0:ℚ) ≤ 1 - e))
              h1 k
        _ = Real.exp (-((e : ℝ) * k)) := by
            rw [← Real.exp_nat_mul]; ring_nf
    rcases eq_or_lt_of_le hD0 with hz | hDpos
    · rw [← hz]; simpa using hε
    · have hlog : Real.log (D / ε) < (e : ℝ) * k := by
        rw [div_lt_iff₀ hE0] at hk
        linarith
      have hexp : Real.exp (-((e : ℝ) * k)) < ε / D := by
        have h2 : Real.exp (-((e : ℝ) * k)) < Real.exp (-(Real.log (D / ε))) :=
          Real.exp_lt_exp.mpr (by linarith)
        have h3 : Real.exp (-(Real.log (D / ε))) = ε / D := by
          rw [Real.exp_neg, Real.exp_log (div_pos hDpos hε), inv_div]
        rwa [h3] at h2
      calc D * (1 - (e : ℝ)) ^ k
          ≤ D * Real.exp (-((e : ℝ) * k)) :=
            mul_le_mul_of_nonneg_left hpow (le_of_lt hDpos)
        _ < D * (ε / D) := mul_lt_mul_of_pos_left hexp hDpos
        _ = ε := by field_simp

/-- Claim C3, witness: with `e = 1/2`, target `1`, start `0`, `ε = 1`,
one tick already brings the distance below `ε`
(`log(|1 - 0| / 1) / e = 0 < 1`). -/
theorem c3_witness :
    |((1 : ℚ) : ℝ) - ((smoothIter (1 / 2) 1 0 1 : ℚ) : ℝ)| < 1 :=
  (c3_smoothing_convergence (1 / 2) 1 0 (by norm_num) (by norm_num)).2.2.2 1
    (by norm_num) 1 (by norm_num [Real.log_one])

/-- Claim C4, counterexample: a single scroll event carrying the
non-scrollable-document metrics `scrollTop = 0, maxScrollTop = 0` makes
`targetFrame = NaN`, so the invariant
`0 ≤ targetFrame, currentFrame ≤ N - 1` is not preserved by every scroll
input. -/
theorem c4_counterexample :
    ¬ ScrubInv 248 (step 248 initState (HeroEvent.scroll 0 0)) := by
  intro h
  rcases h.1 with ⟨t, ht, _⟩
  simp [step, onScroll, JSNum.jsDiv, JSNum.jsMin, JSNum.jsMax,
    JSNum.jsMulQ] at ht

/-- Claim C4 (amended): the invariant
`0 ≤ targetFrame ≤ N - 1 ∧ 0 ≤ currentFrame ≤ N - 1` holds in the
constructor state and is preserved by the render-loop tick and by every
scroll event except one carrying the degenerate metrics
`scrollTop = 0, maxScrollTop = 0` (where `0 / 0 = NaN` enters the state;
see the counterexample). -/
theorem c4_scrub_invariant (N : ℕ) (hN : 1 ≤ N) :
    ScrubInv N initState ∧
    ∀ s ev, ScrubInv N s → goodEvent ev → ScrubInv N (step N s ev) := by
  have hN1 : (1 : ℚ) ≤ (N : ℚ) := by exact_mod_cast hN
  have hN0 : (0 : ℚ) ≤ (N : ℚ) - 1 := by linarith
  constructor
  · exact ⟨⟨0, rfl, le_refl 0, hN0⟩, ⟨0, rfl, le_refl 0, hN0⟩⟩
  · intro s ev hs hg
    cases ev with
    | scroll st mst =>
        obtain ⟨t, ht, ht0, ht1⟩ := onScroll_fin_of_not00 N hN st mst hg
        exact ⟨⟨t, ht, ht0, ht1⟩, hs.2⟩
    | tick =>
        rcases hs with ⟨⟨t, ht, ht0, ht1⟩, ⟨c, hc, hc0, hc1⟩⟩
        set s' : HeroState :=
          { s with
            currentFrame :=
              JSNum.jsAdd s.currentFrame
                (JSNum.jsMulQ (JSNum.jsSub s.targetFrame s.currentFrame) ease) }
          with hs'
        have hframes := crossfadeIfEnding_frames N s'
        have htgt : s'.targetFrame = JSNum.fin t := by simp [hs', ht]
        have hcur : s'.currentFrame = JSNum.fin (c + (t - c) * ease) := by
          simp [hs', ht, hc, JSNum.jsSub, JSNum.jsMulQ, JSNum.jsAdd]
        refine ⟨⟨t, ?_, ht0, ht1⟩, ⟨c + (t - c) * ease, ?_, ?_, ?_⟩⟩
        · exact hframes.1.trans htgt
        · exact hframes.2.trans hcur
        · have : ease = 6 / 100 := rfl
          nlinarith [hc0, ht0]
        · have : ease = 6 / 100 := rfl
          nlinarith [hc1, ht1]

/-- Claim C4, witness: at `N = 248` the constructor state satisfies the
invariant. -/
theorem c4_witness : ScrubInv 248 initState :=
  (c4_scrub_invariant 248 (by norm_num)).1

/-- Claim C5: for every index in `[0, N-1]` whose slot holds a loaded
image, `drawFrame` sets the surface opacity to
`(N - index) / fadeThreshold` clamped to `[0,1]` when
`N - index ≤ fadeThreshold`, and to exactly `1` otherwise (the code's
`max(0, ·)` agrees with the full clamp because `N - index ≥ 1` there);
with `N = 248` and `index = 244` the opacity is `1/2`. -/
theorem c5_opacity_ramp (N : ℕ) (images : ℤ → Option Image) (cssW cssH : ℚ)
    (index : ℤ) (s : Surface) (img : Image)
    (h0 : 0 ≤ index) (h1 : index ≤ (N : ℤ) - 1)
    (himg : images index = some img) (hw : img.width ≠ 0) :
    (drawFrame N images cssW cssH index s).opacity =
      (if (N : ℚ) - (index : ℚ) ≤ fadeThreshold then
        max 0 (min 1 (((N : ℚ) - (index : ℚ)) / fadeThreshold))
      else 1) ∧
    (N = 248 → index = 244 →
      (drawFrame N images cssW cssH index s).opacity = 1 / 2) := by
  have hiq : (index : ℚ) ≤ (N : ℚ) - 1 := by
    have := h1
    push_cast at this ⊢
    exact_mod_cast this
  have hge1 : (1 : ℚ) ≤ (N : ℚ) - (index : ℚ) := by linarith
  have hopac : (drawFrame N images cssW cssH index s).opacity =
      if (N : ℚ) - (index : ℚ) ≤ fadeThreshold then
        max 0 (((N : ℚ) - (index : ℚ)) / fadeThreshold)
      else 1 := by
    simp [drawFrame, himg, hw]
  constructor
  · rw [hopac]
    by_cases hcond : (N : ℚ) - (index : ℚ) ≤ fadeThreshold
    · rw [if_pos hcond, if_pos hcond]
      have hle1 : ((N : ℚ) - (index : ℚ)) / fadeThreshold ≤ 1 := by
        rw [fadeThreshold] at hcond ⊢
        rw [div_le_one (by norm_num : (0 : ℚ) < 8)]
        exact hcond
      rw [min_eq_right hle1]
    · rw [if_neg hcond, if_neg hcond]
  · intro hN hidx
    subst hN; subst hidx
    rw [hopac]
    norm_num [fadeThreshold]

/-- Claim C5, witness: at `N = 248`, `index = 244` with a loaded
image the fade opacity is exactly `1/2`. -/
theorem c5_witness :
    (drawFrame 248 (fun i => if i = 244 then some ⟨100, 100⟩ else none)
      100 100 244 ⟨1, []⟩).opacity = 1 / 2 :=
  (c5_opacity_ramp 248 (fun i => if i = 244 then some ⟨100, 100⟩ else none)
    100 100 244 ⟨1, []⟩ ⟨100, 100⟩ (by norm_num) (by norm_num) (by simp)
    (by norm_num)).2 rfl rfl

/-- Claim C6: with positive canvas and image dimensions and a loaded
slot, the draw command `drawFrame` issues uses the aspect-fit placement:
if the canvas ratio exceeds the image ratio it fits the width
(`drawWidth = cssW`, `drawHeight = drawWidth / imgRatio`, `offsetX = 0`,
`offsetY = (cssH - drawHeight)/2`), otherwise it fits the height
(`drawHeight = cssH`, `drawWidth = drawHeight * imgRatio`,
`offsetY = 0`, `offsetX = (cssW - drawWidth)/2`). -/
theorem c6_aspect_fit (N : ℕ) (images : ℤ → Option Image) (cssW cssH : ℚ)
    (index : ℤ) (s : Surface) (img : Image)
    (hW : 0 < cssW) (hH : 0 < cssH)
    (hiw : 0 < img.width) (hih : 0 < img.height)
    (himg : images index = some img) :
    ∃ dw dh ox oy,
      (drawFrame N images cssW cssH index s).ops =
        s.ops ++ [CanvasOp.clear cssW cssH, CanvasOp.draw img ox oy dw dh] ∧
      (cssW / cssH > img.width / img.height →
          dw = cssW ∧ dh = dw / (img.width / img.height) ∧ ox = 0 ∧
          oy = (cssH - dh) / 2) ∧
      (¬ cssW / cssH > img.width / img.height →
          dh = cssH ∧ dw = dh * (img.width / img.height) ∧ oy = 0 ∧
          ox = (cssW - dw) / 2) := by
  have hw : img.width ≠ 0 := ne_of_gt hiw
  by_cases hr : cssW / cssH > img.width / img.height
  · refine ⟨cssW, cssW / (img.width / img.height), 0,
      (cssH - cssW / (img.width / img.height)) / 2, ?_, ?_, ?_⟩
    · simp [drawFrame, himg, hw, aspectFit, hr]
    · exact fun _ => ⟨rfl, rfl, rfl, rfl⟩
    · exact fun hc => absurd hr hc
  · refine ⟨cssH * (img.width / img.height), cssH,
      (cssW - cssH * (img.width / img.height)) / 2, 0, ?_, ?_, ?_⟩
    · simp [drawFrame, himg, hw, aspectFit, hr]
    · exact fun hc => absurd hc hr
    · exact fun _ => ⟨rfl, rfl, rfl, rfl⟩

/-- Claim C6, witness: a 2:1 canvas showing a square image fits the
width and centers vertically (`offsetY = -50` letterboxes the
overflow). -/
theorem c6_witness :
    (drawFrame 248 (fun _ => some ⟨50, 50⟩) 200 100 0
      ⟨1, []⟩).ops =
      [CanvasOp.clear 200 100, CanvasOp.draw ⟨50, 50⟩ 0 (-50) 200 200] := by
  obtain ⟨dw, dh, ox, oy, hops, hwide, -⟩ :=
    c6_aspect_fit 248 (fun _ => some ⟨50, 50⟩) 200 100 0 ⟨1, []⟩ ⟨50, 50⟩
      (by norm_num) (by norm_num) (by norm_num) (by norm_num) rfl
  obtain ⟨hdw, hdh, hox, hoy⟩ := hwide (by norm_num)
  subst hdw
  norm_num at hdh
  subst hdh
  norm_num at hoy
  subst hoy
  subst hox
  simpa using hops

/-- Claim C7: if the cache slot at `index` is empty (`undefined`) or
holds the failed-load sentinel (an image with `width = 0`), `drawFrame`
is a no-op: it issues no drawing commands and leaves both the canvas
content and the surface opacity exactly as they were. -/
theorem c7_missing_frame_noop (N : ℕ) (images : ℤ → Option Image)
    (cssW cssH : ℚ) (index : ℤ) (s : Surface)
    (h : images index = none ∨
      ∃ img, images index = some img ∧ img.width = 0) :
    drawFrame N images cssW cssH index s = s := by
  rcases h with h | ⟨img, h, hzero⟩
  · simp [drawFrame, h]
  · simp [drawFrame, h, hzero]

/-- Claim C7, witness: with an all-empty cache, `drawFrame 0` leaves a
surface with opacity `1` and no issued commands unchanged. -/
theorem c7_witness :
    drawFrame 248 (fun _ => none) 100 100 0 ⟨1, []⟩ = ⟨1, []⟩ :=
  c7_missing_frame_noop 248 (fun _ => none) 100 100 0 ⟨1, []⟩ (Or.inl rfl)

/-- Claim C8: for every order in which the `N` per-frame fetches settle
(any permutation of the indices) and every success/failure mix:
`Promise.all` does not resolve while any fetch is still pending (so it
resolves exactly once, after the last settlement), it does resolve once
all `N` have settled, every slot ends up resolved with the image its own
outcome stored — one failure never aborts or blocks the others — and
(provided decoded images have nonzero width) the width-0 "empty" slots
are exactly the failed indices. -/
theorem c8_preload_settles (N : ℕ) (evs : List (ℕ × LoadOutcome))
    (hperm : (evs.map Prod.fst).Perm (List.range N)) :
    (∀ pre suf, evs = pre ++ suf → suf ≠ [] →
        allSettled N (runPreload preloadInit pre) = false) ∧
    allSettled N (runPreload preloadInit evs) = true ∧
    (∀ i o, (i, o) ∈ evs →
        (runPreload preloadInit evs).images i = some (storedImage o)) ∧
    ((∀ e ∈ evs, widthSound e = true) → ∀ i, i < N →
        ((∃ img, (runPreload preloadInit evs).images i = some img ∧
            img.width = 0) ↔ (i, LoadOutcome.err) ∈ evs)) := by
  have hnd : (evs.map Prod.fst).Nodup :=
    hperm.nodup_iff.mpr (List.nodup_range N)
  have hmemidx : ∀ i, i < N → ∃ o, (i, o) ∈ evs := by
    intro i hi
    have h1 : i ∈ evs.map Prod.fst :=
      hperm.symm.subset (List.mem_range.mpr hi)
    obtain ⟨e, he, hfst⟩ := List.mem_map.mp h1
    refine ⟨e.2, ?_⟩
    rw [← hfst, Prod.mk.eta]
    exact he
  refine ⟨?_, ?_, ?_, ?_⟩
  · intro pre suf heq hne
    cases suf with
    | nil => exact absurd rfl hne
    | cons e rest =>
        have hj : e.1 ∈ evs.map Prod.fst := by
          rw [heq]
          simp
        have hjN : e.1 < N :=
          List.mem_range.mp (hperm.subset hj)
        have hnotpre : e.1 ∉ pre.map Prod.fst := by
          have hnd2 : (pre.map Prod.fst ++ (e :: rest).map Prod.fst).Nodup := by
            rw [← List.map_append, ← heq]
            exact hnd
          have hdisj := (List.nodup_append.mp hnd2).2.2
          intro hin
          exact hdisj hin (by simp)
        have huntouched : (runPreload preloadInit pre).images e.1 = none := by
          rw [runPreload_untouched e.1 pre preloadInit hnotpre]
          rfl
        apply Bool.eq_false_iff.mpr
        intro hall
        rw [allSettled, List.all_eq_true] at hall
        have h2 := hall e.1 (List.mem_range.mpr hjN)
        rw [huntouched] at h2
        simp at h2
  · rw [allSettled, List.all_eq_true]
    intro i hi
    obtain ⟨o, ho⟩ := hmemidx i (List.mem_range.mp hi)
    rw [runPreload_mem i o evs preloadInit ho hnd]
    rfl
  · intro i o ho
    exact runPreload_mem i o evs preloadInit ho hnd
  · intro hsound i hiN
    constructor
    · rintro ⟨img, himg, hw0⟩
      obtain ⟨o, ho⟩ := hmemidx i hiN
      cases o with
      | ok im =>
          have h2 := runPreload_mem i (LoadOutcome.ok im) evs preloadInit ho hnd
          rw [h2] at himg
          injection himg with h3
          have h4 := hsound _ ho
          simp [widthSound] at h4
          simp [storedImage] at h3
          rw [← h3] at hw0
          exact absurd hw0 h4
      | err => exact ho
    · intro hmem
      have h2 := runPreload_mem i LoadOutcome.err evs preloadInit hmem hnd
      exact ⟨storedImage LoadOutcome.err, h2, rfl⟩

/-- Claim C8, witness: with `N = 2`, frame 0 loading and frame 1
failing, the aggregate still resolves. -/
theorem c8_witness :
    allSettled 2 (runPreload preloadInit
      [(0, LoadOutcome.ok ⟨10, 10⟩), (1, LoadOutcome.err)]) = true :=
  (c8_preload_settles 2 [(0, LoadOutcome.ok ⟨10, 10⟩), (1, LoadOutcome.err)]
    (by decide)).2.1

/-- Claim C9: on any tick whose updated `currentFrame` satisfies
`currentFrame ≥ N - 2`, the `visible` marking is set on the `.hero`
element, and once set it survives every further scroll event and tick —
even ones that drop `currentFrame` below `N - 2` again (`classList.add`
is idempotent and nothing removes the class). -/
theorem c9_visible_persistent (N : ℕ) :
    (∀ s : HeroState,
        JSNum.jsGe (step N s HeroEvent.tick).currentFrame
          (JSNum.fin ((N : ℚ) - 2)) = true →
        (step N s HeroEvent.tick).heroVisible = true) ∧
    (∀ s : HeroState, s.heroVisible = true →
        ∀ evs : List HeroEvent, (run N s evs).heroVisible = true) := by
  constructor
  · intro s h
    simp only [step] at h ⊢
    set s' : HeroState :=
      { s with
        currentFrame :=
          JSNum.jsAdd s.currentFrame
            (JSNum.jsMulQ (JSNum.jsSub s.targetFrame s.currentFrame) ease) }
    rw [(crossfadeIfEnding_frames N s').2] at h
    unfold crossfadeIfEnding
    rw [if_pos h]
  · intro s hs evs
    induction evs generalizing s with
    | nil => exact hs
    | cons ev rest ih =>
        have hstep : (step N s ev).heroVisible = true := by
          cases ev with
          | scroll st mst => exact hs
          | tick => exact crossfadeIfEnding_mono N _ hs
        exact ih _ hstep

/-- Claim C9, witness: a state already marked `visible` stays marked
after a further tick and a scroll back to the top. -/
theorem c9_witness :
    (run 248
      { targetFrame := JSNum.fin 247, currentFrame := JSNum.fin 247,
        heroVisible := true }
      [HeroEvent.tick, HeroEvent.scroll 0 100]).heroVisible = true :=
  (c9_visible_persistent 248).2 _ rfl [HeroEvent.tick, HeroEvent.scroll 0 100]

/-- Claim C10: for every clamped fraction `f ∈ [0,1]` and `N ≥ 1`, the
integer frame of the direct-mapping variant,
`min(N-1, floor(f * N))`, equals the floor of the eased variant's
target, `floor(min(N-1, f * N))` — at smoothing convergence the two
variants display the same frame. -/
theorem c10_direct_vs_eased (N : ℕ) (hN : 1 ≤ N) (f : ℚ)
    (h0 : 0 ≤ f) (h1 : f ≤ 1) :
    directFrameIndex N f = ⌊targetOfFraction N f⌋ := by
  have hNf : ⌊(N : ℚ) - 1⌋ = (N : ℤ) - 1 := by
    rw [Int.floor_sub_one, Int.floor_natCast]
  unfold directFrameIndex targetOfFraction
  rcases le_total (f * (N : ℚ)) ((N : ℚ) - 1) with h | h
  · have hfl : ⌊f * (N : ℚ)⌋ ≤ (N : ℤ) - 1 := by
      have h2 : ⌊f * (N : ℚ)⌋ ≤ ⌊(N : ℚ) - 1⌋ := Int.floor_le_floor h
      rwa [hNf] at h2
    rw [min_eq_right h, min_eq_right hfl]
  · have hfl : (N : ℤ) - 1 ≤ ⌊f * (N : ℚ)⌋ := by
      rw [Int.le_floor]
      push_cast
      exact_mod_cast h
    rw [min_eq_left h, min_eq_left hfl, hNf]

/-- Claim C10, witness: at `N = 248`, `f = 1/2` both variants select
frame 124. -/
theorem c10_witness :
    directFrameIndex 248 (1 / 2) = ⌊targetOfFraction 248 (1 / 2)⌋ :=
  c10_direct_vs_eased 248 (by norm_num) (1 / 2) (by norm_num) (by norm_num)

end EarPeace
